import Mathlib

/-!
Shallow embedding of the SaitDemureSelection schedule-generation core:
the CSV course-section data model, the time-conflict detector, the CSV
parser, the filter acceptance predicate and the backtracking
combination search, together with proofs of the behavioural properties
stated in the specification.

Times are kept as the raw "HH:MM" strings of the source; the JavaScript
helpers split and trim are modelled by executable character-list
functions with the same observable behaviour on the inputs the program
produces.
-/

/-- Record of one meeting time range, both ends 24-hour "HH:MM" strings
(csvParser CourseTime). -/
structure CourseTime where
  startTime : String
  endTime : String
deriving DecidableEq

/-- Meeting delivery type, the source union "Online" | "In-person". -/
inductive MeetingType where
  | online
  | inPerson
deriving DecidableEq

/-- Record of one weekly meeting: weekday name, time range and delivery
type (csvParser CourseMeeting). -/
structure CourseMeeting where
  day : String
  time : CourseTime
  type : MeetingType
deriving DecidableEq

/-- Record of one course section with exactly two weekly meetings, kept
as a pair to mirror the source tuple type (csvParser CourseSection). -/
structure CourseSection where
  courseName : String
  subject : String
  courseCode : String
  crn : String
  meetings : CourseMeeting × CourseMeeting
deriving DecidableEq

/-- The two meetings of a section as a list, in tuple order; the source
iterates the tuple with forEach in this order. -/
def CourseSection.meetingList (s : CourseSection) : List CourseMeeting :=
  [s.meetings.1, s.meetings.2]

/-- Course identity of a section, the concatenation of subject and
course code used throughout the generator. -/
def courseIdOf (s : CourseSection) : String :=
  s.subject ++ s.courseCode

/-! ## String helpers

The JavaScript String.split with a one-character separator and
String.trim are modelled structurally over the underlying character
list, so that every definition evaluates inside the kernel. -/

/-- Auxiliary splitter: walks the characters, cutting at each separator
occurrence; the accumulator holds the current chunk reversed. -/
def splitCharsAux (sep : Char) : List Char → List Char → List (List Char)
  | [], acc => [acc.reverse]
  | c :: rest, acc =>
    if c = sep then acc.reverse :: splitCharsAux sep rest []
    else splitCharsAux sep rest (c :: acc)

/-- Split of a string at every occurrence of a one-character separator,
with the JavaScript String.split semantics (never returns an empty
list; adjacent separators yield empty chunks). -/
def splitString (sep : Char) (s : String) : List String :=
  (splitCharsAux sep s.data []).map String.mk

/-- ASCII whitespace test used by the trim model. -/
def isSpaceChar (c : Char) : Bool :=
  c == ' ' || c == '\t' || c == '\n' || c == '\r'

/-- Trim of leading and trailing whitespace, modelling
String.prototype.trim on the ASCII whitespace the input format uses. -/
def trimString (s : String) : String :=
  String.mk (((s.data.dropWhile isSpaceChar).reverse.dropWhile isSpaceChar).reverse)

/-- Numeric value of a digit string, modelling Number(_) on the
all-digit strings the validated inputs feed it; the NaN results Number
yields on malformed strings are never produced by validated data and
are collapsed to ordinary numbers here. -/
def charsToNat (cs : List Char) : Nat :=
  cs.foldl (fun n c => n * 10 + (c.toNat - 48)) 0

/-- Conversion of an "HH:MM" string to minutes since midnight
(scheduleGenerator timeToMinutes, and the inline parsing in
hasTimeConflict): split at the colon and combine the first two parts. -/
def timeToMinutes (time : String) : Nat :=
  match splitString ':' time with
  | hours :: minutes :: _ => charsToNat hours.data * 60 + charsToNat minutes.data
  | _ => 0

/-! ## Conflict detector -/

/-- Overlap test between two single meetings, the body of the nested
loops of hasTimeConflict: same weekday and the half-open
minutes-since-midnight intervals intersect. -/
def meetingsConflict (m1 m2 : CourseMeeting) : Bool :=
  if m1.day ≠ m2.day then false
  else
    decide (max (timeToMinutes m1.time.startTime) (timeToMinutes m2.time.startTime) <
      min (timeToMinutes m1.time.endTime) (timeToMinutes m2.time.endTime))

/-- Pairwise meeting overlap test between two sections
(csvParser hasTimeConflict): some meeting of the first and some meeting
of the second conflict. -/
def hasTimeConflict (section1 section2 : CourseSection) : Bool :=
  section1.meetingList.any fun meeting1 =>
    section2.meetingList.any fun meeting2 => meetingsConflict meeting1 meeting2

lemma meetingsConflict_comm (m1 m2 : CourseMeeting) :
    meetingsConflict m1 m2 = meetingsConflict m2 m1 := by
  unfold meetingsConflict
  by_cases h : m1.day = m2.day
  · simp [h, Nat.max_comm, Nat.min_comm]
  · simp [h, Ne.symm h]

lemma bool_or_or_comm (x y z w : Bool) :
    ((x || y) || (z || w)) = ((x || z) || (y || w)) := by
  cases x <;> cases y <;> cases z <;> cases w <;> rfl

lemma hasTimeConflict_comm (a b : CourseSection) :
    hasTimeConflict a b = hasTimeConflict b a := by
  unfold hasTimeConflict CourseSection.meetingList
  simp only [List.any_cons, List.any_nil, Bool.or_false]
  rw [meetingsConflict_comm a.meetings.1 b.meetings.1,
    meetingsConflict_comm a.meetings.1 b.meetings.2,
    meetingsConflict_comm a.meetings.2 b.meetings.1,
    meetingsConflict_comm a.meetings.2 b.meetings.2]
  exact bool_or_or_comm
    (meetingsConflict b.meetings.1 a.meetings.1)
    (meetingsConflict b.meetings.2 a.meetings.1)
    (meetingsConflict b.meetings.1 a.meetings.2)
    (meetingsConflict b.meetings.2 a.meetings.2)

/-- C5: hasTimeConflict is symmetric. -/
theorem c5_hasTimeConflict_symm (a b : CourseSection) :
    hasTimeConflict a b = hasTimeConflict b a :=
  hasTimeConflict_comm a b

/-! ## C6: characterisation of the conflict test -/

/-- Specification-side conflict predicate, following the spec wording:
some meeting of one section and some meeting of the other fall on the
same day and their half-open minutes-since-midnight intervals overlap,
overlap meaning max of the starts strictly below min of the ends. -/
def specConflict (a b : CourseSection) : Prop :=
  ∃ m1 ∈ a.meetingList, ∃ m2 ∈ b.meetingList,
    m1.day = m2.day ∧
      max (timeToMinutes m1.time.startTime) (timeToMinutes m2.time.startTime) <
        min (timeToMinutes m1.time.endTime) (timeToMinutes m2.time.endTime)

lemma meetingsConflict_iff (m1 m2 : CourseMeeting) :
    meetingsConflict m1 m2 = true ↔
      (m1.day = m2.day ∧
        max (timeToMinutes m1.time.startTime) (timeToMinutes m2.time.startTime) <
          min (timeToMinutes m1.time.endTime) (timeToMinutes m2.time.endTime)) := by
  unfold meetingsConflict
  by_cases h : m1.day = m2.day <;> simp [h]

/-- Boundary example: section meeting Monday 09:00 to 10:00. -/
def edgeSectionA : CourseSection :=
  ⟨"Course A", "AAA", "101", "10001",
    (⟨"Monday", ⟨"09:00", "10:00"⟩, .inPerson⟩,
     ⟨"Tuesday", ⟨"09:00", "10:00"⟩, .inPerson⟩)⟩

/-- Boundary example: section meeting Monday 10:00 to 11:00. -/
def edgeSectionB : CourseSection :=
  ⟨"Course B", "BBB", "102", "10002",
    (⟨"Monday", ⟨"10:00", "11:00"⟩, .inPerson⟩,
     ⟨"Wednesday", ⟨"10:00", "11:00"⟩, .inPerson⟩)⟩

/-- Boundary example: section meeting Monday 09:00 to 10:01, one minute
past the start of edgeSectionB. -/
def edgeSectionC : CourseSection :=
  ⟨"Course C", "CCC", "103", "10003",
    (⟨"Monday", ⟨"09:00", "10:01"⟩, .inPerson⟩,
     ⟨"Thursday", ⟨"09:00", "10:01"⟩, .inPerson⟩)⟩

/-- C6: hasTimeConflict is exactly the half-open same-day interval
overlap test in minutes since midnight; meetings that merely touch at a
shared endpoint (end of one equal to start of the other) do not
conflict, while extending the earlier meeting one minute past the start
of the later one does conflict. -/
theorem c6_hasTimeConflict_halfOpen :
    (∀ a b : CourseSection, hasTimeConflict a b = true ↔ specConflict a b) ∧
    hasTimeConflict edgeSectionA edgeSectionB = false ∧
    hasTimeConflict edgeSectionC edgeSectionB = true := by
  refine ⟨fun a b => ?_, by decide, by decide⟩
  unfold hasTimeConflict specConflict
  simp [List.any_eq_true, meetingsConflict_iff]

/-! ## CSV parser -/

/-- Result record of the parser (csvParser ValidationResult); the
JavaScript null data is the none case. -/
structure ValidationResult where
  isValid : Bool
  errors : List String
  data : Option (List CourseSection)
deriving DecidableEq

/-- The exact header row the parser requires. -/
def expectedHeader : String :=
  "CourseName,Subject,CourseCode,FirstMeetingDay,FirstMeetingTime,FirstMeetingType,SecondMeetingDay,SecondMeetingTime,SecondMeetingType,CRN"

/-- Non-empty trimmed lines of the input, in order: split at newlines,
trim each line, drop empty lines. -/
def csvLines (csvContent : String) : List String :=
  ((splitString '\n' csvContent).map trimString).filter fun l => l.length > 0

/-- The seven weekday names accepted by isValidDay. -/
def validDays : List String :=
  ["Monday", "Tuesday", "Wednesday", "Thursday", "Friday", "Saturday", "Sunday"]

/-- Day validation (csvParser isValidDay): exact match against one of
the seven weekday names. -/
def isValidDay (day : String) : Bool :=
  decide (day ∈ validDays)

/-- Meeting type validation (csvParser isValidMeetingType). -/
def isValidMeetingType (type : String) : Bool :=
  type == "Online" || type == "In-person"

/-- Test for a two-digit "HH" or "MM" component with the given upper
bound, the component alternatives of the time regular expression. -/
def isTwoDigitUpTo (s : String) (hi : Nat) : Bool :=
  s.data.length == 2 && s.data.all Char.isDigit && decide (charsToNat s.data ≤ hi)

/-- Structural equivalent of the anchored time regular expression
HH:MM-HH:MM with hours 00 to 23 and minutes 00 to 59. -/
def timePatternTest (time : String) : Bool :=
  match splitString '-' time with
  | [a, b] =>
    (match splitString ':' a with
     | [h, m] => isTwoDigitUpTo h 23 && isTwoDigitUpTo m 59
     | _ => false) &&
    (match splitString ':' b with
     | [h, m] => isTwoDigitUpTo h 23 && isTwoDigitUpTo m 59
     | _ => false)
  | _ => false

/-- Time range validation (csvParser isValidTimeFormat): the pattern
test, then end strictly after start in minutes. -/
def isValidTimeFormat (time : String) : Bool :=
  if !timePatternTest time then false
  else
    match splitString '-' time with
    | startPart :: endPart :: _ =>
      decide (timeToMinutes endPart > timeToMinutes startPart)
    | _ => false

/-- Split of a validated "HH:MM-HH:MM" field into a CourseTime
(csvParser parseTimeString); the impossible shapes fall back to empty
components, mirroring the undefined JavaScript would produce there. -/
def parseTimeString (timeString : String) : CourseTime :=
  match splitString '-' timeString with
  | startPart :: endPart :: _ => ⟨startPart, endPart⟩
  | [startPart] => ⟨startPart, ""⟩
  | [] => ⟨"", ""⟩

/-- Conversion of a validated meeting type field to the union type (the
cast in the source after isValidMeetingType). -/
def parseMeetingType (t : String) : MeetingType :=
  if t == "Online" then .online else .inPerson

/-- Mutable state of the row loop: errors found so far, sections parsed
so far, CRNs registered so far. -/
structure ParseState where
  errors : List String
  parsedCourses : List CourseSection
  crns : List String
deriving DecidableEq

/-- One iteration of the row loop of parseCourseCsv: split the row at
commas and run the validation chain, each failure appending one
line-numbered diagnostic and skipping the row. The CRN is registered
after its duplicate and format checks, before the remaining checks, as
in the source. -/
def processLine (st : ParseState) (lineNumber : Nat) (line : String) : ParseState :=
  match splitString ',' line with
  | [courseName, subject, courseCode, firstDay, firstTime, firstType,
     secondDay, secondTime, secondType, crn] =>
    if courseName == "" || subject == "" || courseCode == "" || crn == "" then
      { st with errors := st.errors ++ ["Line " ++ toString lineNumber ++ ": Missing required fields"] }
    else if decide (crn ∈ st.crns) then
      { st with errors := st.errors ++ ["Line " ++ toString lineNumber ++ ": Duplicate CRN " ++ crn] }
    else if !(crn.data.length == 5 && crn.data.all Char.isDigit) then
      { st with errors := st.errors ++ ["Line " ++ toString lineNumber ++ ": Invalid CRN format " ++ crn] }
    else
      let st1 := { st with crns := st.crns ++ [crn] }
      if !(courseCode.data.length == 3 && courseCode.data.all Char.isDigit) then
        { st1 with errors := st1.errors ++ ["Line " ++ toString lineNumber ++ ": Invalid course code format " ++ courseCode] }
      else if !isValidDay firstDay then
        { st1 with errors := st1.errors ++ ["Line " ++ toString lineNumber ++ ": Invalid first meeting day " ++ firstDay] }
      else if !isValidDay secondDay then
        { st1 with errors := st1.errors ++ ["Line " ++ toString lineNumber ++ ": Invalid second meeting day " ++ secondDay] }
      else if !isValidTimeFormat firstTime then
        { st1 with errors := st1.errors ++ ["Line " ++ toString lineNumber ++ ": Invalid first meeting time format " ++ firstTime] }
      else if !isValidTimeFormat secondTime then
        { st1 with errors := st1.errors ++ ["Line " ++ toString lineNumber ++ ": Invalid second meeting time format " ++ secondTime] }
      else if !isValidMeetingType firstType then
        { st1 with errors := st1.errors ++ ["Line " ++ toString lineNumber ++ ": Invalid first meeting type " ++ firstType] }
      else if !isValidMeetingType secondType then
        { st1 with errors := st1.errors ++ ["Line " ++ toString lineNumber ++ ": Invalid second meeting type " ++ secondType] }
      else
        { st1 with parsedCourses := st1.parsedCourses ++
            [⟨courseName, subject, courseCode, crn,
              (⟨firstDay, parseTimeString firstTime, parseMeetingType firstType⟩,
               ⟨secondDay, parseTimeString secondTime, parseMeetingType secondType⟩)⟩] }
  | _ =>
    { st with errors := st.errors ++ ["Line " ++ toString lineNumber ++ ": Invalid number of fields"] }

/-- The row loop of parseCourseCsv over the data lines, threading the
state and the one-based line number. -/
def processLines : ParseState → Nat → List String → ParseState
  | st, _, [] => st
  | st, n, l :: rest => processLines (processLine st n l) (n + 1) rest

/-- The parser (csvParser parseCourseCsv): header check with early
invalid return, then the row loop; the overall result is valid exactly
when no error was recorded, and data is only populated when valid. -/
def parseCourseCsv (csvContent : String) : ValidationResult :=
  let lines := csvLines csvContent
  let header := lines.headD ""
  if header ≠ expectedHeader then
    { isValid := false, errors := ["Invalid CSV header format"], data := none }
  else
    let st := processLines ⟨[], [], []⟩ 2 lines.tail
    let valid := st.errors.length == 0
    { isValid := valid, errors := st.errors,
      data := if valid then some st.parsedCourses else none }

/-! ## C8 and C9: parser error behaviour -/

/-- C8: whenever the first non-empty trimmed line of the input differs
from the exact expected header, the parser returns invalid, null data
and exactly the single header diagnostic, whatever the later lines
hold. -/
theorem c8_bad_header (csvContent : String)
    (h : (csvLines csvContent).headD "" ≠ expectedHeader) :
    parseCourseCsv csvContent =
      { isValid := false, errors := ["Invalid CSV header format"], data := none } := by
  unfold parseCourseCsv
  rw [if_pos h]

/-- C8 witness: a concrete input whose first line is not the header. -/
theorem c8_bad_header_witness :
    (csvLines "not a header\nA,B,C,D,E,F,G,H,I,J").headD "" ≠ expectedHeader ∧
    parseCourseCsv "not a header\nA,B,C,D,E,F,G,H,I,J" =
      { isValid := false, errors := ["Invalid CSV header format"], data := none } :=
  ⟨by decide, c8_bad_header _ (by decide)⟩

/-- C9: the parser result is valid exactly when its error list is
empty, and carries data exactly when it is valid. -/
theorem c9_valid_iff_no_errors (csvContent : String) :
    ((parseCourseCsv csvContent).isValid = true ↔ (parseCourseCsv csvContent).errors = []) ∧
    ((parseCourseCsv csvContent).data.isSome = (parseCourseCsv csvContent).isValid) := by
  unfold parseCourseCsv
  by_cases h : (csvLines csvContent).headD "" ≠ expectedHeader
  · rw [if_pos h]
    simp
  · rw [if_neg h]
    refine ⟨?_, ?_⟩
    · simp [List.length_eq_zero]
    · cases hb : (processLines ⟨[], [], []⟩ 2 (csvLines csvContent).tail).errors.length == 0 <;>
        simp [hb]

/-! ## Schedule filters (types/filters.ts) -/

/-- Time-of-day filter value. -/
inductive TimeOfDay where
  | morning
  | afternoon
  | evening
  | any
deriving DecidableEq

/-- Delivery-mode filter value. -/
inductive DeliveryMode where
  | online
  | inPerson
  | hybrid
  | any
deriving DecidableEq

/-- Compactness filter value. -/
inductive ScheduleCompactness where
  | compact
  | spread
  | any
deriving DecidableEq

/-- Days-off filter value. -/
inductive DaysOff where
  | any
  | oneDay
  | twoDays
deriving DecidableEq

/-- The filter configuration record. -/
structure ScheduleFilters where
  isEnabled : Bool
  deliveryMode : DeliveryMode
  timeOfDay : TimeOfDay
  scheduleCompactness : ScheduleCompactness
  daysOff : DaysOff
deriving DecidableEq

/-- The default filter configuration: disabled, everything any. -/
def defaultFilters : ScheduleFilters :=
  ⟨false, .any, .any, .any, .any⟩

/-- Hour bands of the time-of-day filter (types/filters.ts timeRanges);
the any entry is never read by the source, which only indexes the map
with the three band values. -/
def timeRanges (t : TimeOfDay) : Nat × Nat :=
  match t with
  | .morning => (8, 12)
  | .afternoon => (12, 17)
  | .evening => (17, 21)
  | .any => (0, 0)

/-! ## Filter acceptance predicate (scheduleGenerator.ts) -/

/-- Membership test of a start time in an hour band
(scheduleGenerator isInTimeRange). -/
def isInTimeRange (time : String) (range : Nat × Nat) : Bool :=
  let minutes := timeToMinutes time
  decide (minutes ≥ range.1 * 60) && decide (minutes < range.2 * 60)

/-- Addition of a day name to the active-day collection, modelling the
JavaScript Set insertion: appended once, first occurrence kept. -/
def addDay (acc : List String) (d : String) : List String :=
  if d ∈ acc then acc else acc ++ [d]

/-- Distinct days with any meeting in a combination, in first-seen
order (scheduleGenerator getActiveDays); the size of the JavaScript Set
is the length of this list. -/
def getActiveDays (combination : List CourseSection) : List String :=
  combination.foldl
    (fun activeDays s => s.meetingList.foldl (fun acc m => addDay acc m.day) activeDays) []

/-- The five weekday names whose count (5) the days-off computation
subtracts from. -/
def weekdayNames : List String :=
  ["Monday", "Tuesday", "Wednesday", "Thursday", "Friday"]

/-- Days-off sub-check of meetsFilterCriteria, the source block guarded
by daysOff not being any: daysOff is 5 minus the number of distinct
meeting days, and oneDay and twoDays demand the exact values 1 and 2. -/
def daysOffFilterCheck (combination : List CourseSection) (filters : ScheduleFilters) : Bool :=
  if filters.daysOff ≠ DaysOff.any then
    let totalActiveDays := (getActiveDays combination).length
    let weekdays := weekdayNames.length
    let daysOff : Int := (weekdays : Int) - (totalActiveDays : Int)
    if filters.daysOff == DaysOff.oneDay && daysOff != 1 then false
    else if filters.daysOff == DaysOff.twoDays && daysOff != 2 then false
    else true
  else true

/-- Delivery-mode sub-check of meetsFilterCriteria: online and inPerson
demand at least half of all meetings of the kind, hybrid demands both
kinds present. -/
def deliveryModeFilterCheck (combination : List CourseSection) (filters : ScheduleFilters) : Bool :=
  if filters.deliveryMode ≠ DeliveryMode.any then
    let meetingTypes := combination.flatMap fun s => s.meetingList.map fun m => m.type
    let onlineMeetingsCount := (meetingTypes.filter fun t => t == MeetingType.online).length
    let inPersonMeetingsCount := (meetingTypes.filter fun t => t == MeetingType.inPerson).length
    let hasOnline := decide (onlineMeetingsCount > 0)
    let hasInPerson := decide (inPersonMeetingsCount > 0)
    match filters.deliveryMode with
    | .online => !decide ((onlineMeetingsCount : ℚ) < (meetingTypes.length : ℚ) / 2)
    | .inPerson => !decide ((inPersonMeetingsCount : ℚ) < (meetingTypes.length : ℚ) / 2)
    | .hybrid => hasOnline && hasInPerson
    | .any => true
  else true

/-- Time-of-day sub-check of meetsFilterCriteria: at least half of all
meetings must start inside the selected band. -/
def timeOfDayFilterCheck (combination : List CourseSection) (filters : ScheduleFilters) : Bool :=
  if filters.timeOfDay ≠ TimeOfDay.any then
    let range := timeRanges filters.timeOfDay
    let meetingsInRange : Nat := combination.foldl
      (fun count s =>
        count + (s.meetingList.filter fun m => isInTimeRange m.time.startTime range).length) 0
    let totalMeetings : Nat := combination.foldl (fun count s => count + s.meetingList.length) 0
    !decide ((meetingsInRange : ℚ) < (totalMeetings : ℚ) / 2)
  else true

/-- Insertion-ordered grouping of meeting time ranges under their day
name, modelling the Map of the compactness check. -/
def pushByDay : List (String × List CourseTime) → String → CourseTime → List (String × List CourseTime)
  | [], day, t => [(day, [t])]
  | (d, ts) :: rest, day, t =>
    if d = day then (d, ts ++ [t]) :: rest
    else (d, ts) :: pushByDay rest day t

/-- All meetings of a combination grouped by day, in first-seen day
order with per-day push order. -/
def meetingsByDayOf (combination : List CourseSection) : List (String × List CourseTime) :=
  combination.foldl
    (fun m s => s.meetingList.foldl (fun m2 mt => pushByDay m2 mt.day mt.time) m) []

/-- Chronological sort of the meetings of one day by start time
(scheduleGenerator sortMeetings); the stable JavaScript sort with a
consistent comparator is a stable merge sort. -/
def sortMeetings (meetings : List CourseTime) : List CourseTime :=
  meetings.mergeSort fun a b => decide (timeToMinutes a.startTime ≤ timeToMinutes b.startTime)

/-- Gap in hours between the end of one meeting and the start of the
next (scheduleGenerator getGapBetweenMeetings). -/
def getGapBetweenMeetings (endTime startTime : String) : ℚ :=
  ((timeToMinutes startTime : ℚ) - (timeToMinutes endTime : ℚ)) / 60

/-- Gaps between successive meetings of one sorted day. -/
def successiveGaps : List CourseTime → List ℚ
  | a :: b :: rest => getGapBetweenMeetings a.endTime b.startTime :: successiveGaps (b :: rest)
  | _ => []

/-- Validity of one multi-meeting day: compact forbids any gap above 2
hours, spread forbids any gap below 1 hour. -/
def dayGapsValid (mode : ScheduleCompactness) (sorted : List CourseTime) : Bool :=
  match mode with
  | .compact => (successiveGaps sorted).all fun g => !decide (g > 2)
  | .spread => (successiveGaps sorted).all fun g => !decide (g < 1)
  | .any => true

/-- Compactness sub-check of meetsFilterCriteria: when some day holds
several meetings, at least half of those days must be valid for the
selected mode. -/
def compactnessFilterCheck (combination : List CourseSection) (filters : ScheduleFilters) : Bool :=
  if filters.scheduleCompactness ≠ ScheduleCompactness.any then
    let dayLists := (meetingsByDayOf combination).map fun p => p.2
    let multiDayLists := dayLists.filter fun l => decide (l.length ≥ 2)
    let totalDaysWithMultipleMeetings := multiDayLists.length
    let validDayCount :=
      (multiDayLists.filter fun l =>
        dayGapsValid filters.scheduleCompactness (sortMeetings l)).length
    if decide (totalDaysWithMultipleMeetings > 0) &&
        decide ((validDayCount : ℚ) < (totalDaysWithMultipleMeetings : ℚ) / 2) then false
    else true
  else true

/-- The filter acceptance predicate
(scheduleGenerator meetsFilterCriteria): disabled filters accept
everything, otherwise the four sub-checks must all pass; the source
early returns are the short-circuit conjunction. -/
def meetsFilterCriteria (combination : List CourseSection) (filters : ScheduleFilters) : Bool :=
  if !filters.isEnabled then true
  else
    daysOffFilterCheck combination filters &&
    deliveryModeFilterCheck combination filters &&
    timeOfDayFilterCheck combination filters &&
    compactnessFilterCheck combination filters

/-! ## C1: the days-off sub-check -/

/-- All meeting day names of a combination, in iteration order. -/
def allMeetingDays (c : List CourseSection) : List String :=
  c.flatMap fun s => s.meetingList.map fun m => m.day

lemma toFinset_addDay (acc : List String) (d : String) :
    (addDay acc d).toFinset = insert d acc.toFinset := by
  unfold addDay
  split
  · next h => exact (Finset.insert_eq_self.mpr (List.mem_toFinset.mpr h)).symm
  · next h => ext x; simp [List.toFinset_append, or_comm]

lemma nodup_addDay (acc : List String) (d : String) (h : acc.Nodup) :
    (addDay acc d).Nodup := by
  unfold addDay
  split
  · exact h
  · next hd =>
    refine List.Nodup.append h (List.nodup_singleton d) ?_
    intro a ha hb
    rw [List.mem_singleton] at hb
    exact hd (hb ▸ ha)

lemma foldl_addDay_nodup (days : List String) (acc : List String) (h : acc.Nodup) :
    (days.foldl addDay acc).Nodup := by
  induction days generalizing acc with
  | nil => simpa
  | cons d rest ih => exact ih _ (nodup_addDay acc d h)

lemma foldl_addDay_toFinset (days : List String) (acc : List String) :
    (days.foldl addDay acc).toFinset = acc.toFinset ∪ days.toFinset := by
  induction days generalizing acc with
  | nil => simp
  | cons d rest ih =>
    rw [List.foldl_cons, ih, toFinset_addDay]
    ext x
    simp

lemma foldl_addDay_sections (c : List CourseSection) (acc : List String) :
    c.foldl (fun activeDays s => s.meetingList.foldl (fun a m => addDay a m.day) activeDays) acc
      = (c.flatMap fun s => s.meetingList.map fun m => m.day).foldl addDay acc := by
  induction c generalizing acc with
  | nil => rfl
  | cons s rest ih =>
    rw [List.foldl_cons, List.flatMap_cons, List.foldl_append, List.foldl_map, ih]

/-- The size of the active-day set is the number of distinct meeting
days of the combination. -/
lemma getActiveDays_length (c : List CourseSection) :
    (getActiveDays c).length = (allMeetingDays c).dedup.length := by
  have h1 : getActiveDays c = (allMeetingDays c).foldl addDay [] :=
    foldl_addDay_sections c []
  have h2 : ((allMeetingDays c).foldl addDay []).Nodup :=
    foldl_addDay_nodup _ _ (by simp)
  have h3 : ((allMeetingDays c).foldl addDay []).toFinset = (allMeetingDays c).toFinset := by
    rw [foldl_addDay_toFinset]
    simp
  rw [h1, ← List.toFinset_card_of_nodup h2, h3, List.card_toFinset]

/-- Active-weekday count as the claim words it: distinct
Monday-to-Friday days with any meeting, Saturday and Sunday excluded. -/
def claimedActiveWeekdayCount (c : List CourseSection) : Nat :=
  ((allMeetingDays c).filter fun d => decide (d ∈ weekdayNames)).dedup.length

/-- Days-off sub-check as the claim words it: daysOff is 5 minus the
distinct weekday (Monday-to-Friday) count, oneDay and twoDays demand
the exact values 1 and 2. -/
def claimedDaysOffCheck (c : List CourseSection) (f : ScheduleFilters) : Bool :=
  match f.daysOff with
  | .any => true
  | .oneDay => decide ((5 : Int) - claimedActiveWeekdayCount c = 1)
  | .twoDays => decide ((5 : Int) - claimedActiveWeekdayCount c = 2)

/-- Days-off sub-check as the code computes it, with an independent
distinct-day count: daysOff is 5 minus the number of distinct meeting
days over all seven weekday names, so Saturday and Sunday meetings do
reduce it. -/
def amendedDaysOffCheck (c : List CourseSection) (f : ScheduleFilters) : Bool :=
  match f.daysOff with
  | .any => true
  | .oneDay => decide ((5 : Int) - (allMeetingDays c).dedup.length = 1)
  | .twoDays => decide ((5 : Int) - (allMeetingDays c).dedup.length = 2)

/-- Section meeting Monday and Tuesday mornings. -/
def weekdaySection : CourseSection :=
  ⟨"Course W", "WWW", "202", "20002",
    (⟨"Monday", ⟨"09:00", "10:00"⟩, .inPerson⟩,
     ⟨"Tuesday", ⟨"09:00", "10:00"⟩, .inPerson⟩)⟩

/-- Section meeting Wednesday and Saturday mornings. -/
def satSection : CourseSection :=
  ⟨"Course S", "SSS", "201", "20001",
    (⟨"Wednesday", ⟨"09:00", "10:00"⟩, .inPerson⟩,
     ⟨"Saturday", ⟨"09:00", "10:00"⟩, .inPerson⟩)⟩

/-- Enabled filters demanding exactly one day off, everything else
any. -/
def oneDayOffFilters : ScheduleFilters :=
  ⟨true, .any, .any, .any, .oneDay⟩

/-- C1 counterexample: a combination meeting Monday, Tuesday, Wednesday
and Saturday. The code counts Saturday as an active day, computes
daysOff 1 and accepts under oneDay, while the claimed weekday-only
computation gives daysOff 2 and rejects, so Saturday meetings do reduce
the count computed by the code. -/
theorem c1_daysOff_counterexample :
    oneDayOffFilters.isEnabled = true ∧
    oneDayOffFilters.daysOff = DaysOff.oneDay ∧
    daysOffFilterCheck [weekdaySection, satSection] oneDayOffFilters = true ∧
    meetsFilterCriteria [weekdaySection, satSection] oneDayOffFilters = true ∧
    claimedDaysOffCheck [weekdaySection, satSection] oneDayOffFilters = false := by
  decide

lemma daysOffFilterCheck_eq_amended (c : List CourseSection) (f : ScheduleFilters) :
    daysOffFilterCheck c f = amendedDaysOffCheck c f := by
  unfold daysOffFilterCheck amendedDaysOffCheck
  rw [getActiveDays_length c]
  cases f.daysOff with
  | any => rfl
  | oneDay => simp [bne, weekdayNames]
  | twoDays => simp [bne, weekdayNames]

/-- C1 amended: for enabled filters the acceptance predicate is the
conjunction of the four sub-checks where the days-off sub-check
computes daysOff as 5 minus the number of distinct days (over all
seven day names, so Saturday and Sunday meetings do reduce the count)
on which the combination has any meeting, accepting oneDay exactly at
daysOff 1 and twoDays exactly at daysOff 2. -/
theorem c1_daysOff_amended (c : List CourseSection) (f : ScheduleFilters)
    (h : f.isEnabled = true) :
    meetsFilterCriteria c f =
      (amendedDaysOffCheck c f &&
       deliveryModeFilterCheck c f &&
       timeOfDayFilterCheck c f &&
       compactnessFilterCheck c f) := by
  unfold meetsFilterCriteria
  rw [h]
  simp [daysOffFilterCheck_eq_amended]

/-- C1 amended witness at a concrete enabled filter value. -/
theorem c1_daysOff_amended_witness :
    oneDayOffFilters.isEnabled = true ∧
    meetsFilterCriteria [weekdaySection] oneDayOffFilters =
      (amendedDaysOffCheck [weekdaySection] oneDayOffFilters &&
       deliveryModeFilterCheck [weekdaySection] oneDayOffFilters &&
       timeOfDayFilterCheck [weekdaySection] oneDayOffFilters &&
       compactnessFilterCheck [weekdaySection] oneDayOffFilters) :=
  ⟨rfl, c1_daysOff_amended [weekdaySection] oneDayOffFilters rfl⟩

/-! ## Combination search engine (scheduleGenerator.ts) -/

/-- One generated combination: the chosen sections and their count
(scheduleGenerator ScheduleCombination). -/
structure ScheduleCombination where
  sections : List CourseSection
  courseCount : Nat
deriving DecidableEq

/-- Aggregate statistics of one generation run. -/
structure ScheduleStats where
  totalCombinations : Nat
  coursesIncluded : List String
deriving DecidableEq

/-- The generator result record
(scheduleGenerator ScheduleGeneratorResult). -/
structure ScheduleGeneratorResult where
  combinations : List ScheduleCombination
  stats : ScheduleStats
deriving DecidableEq

/-- Conflict test of a candidate section against every section already
in the partial combination
(scheduleGenerator hasConflictWithCombination). -/
def hasConflictWithCombination (s : CourseSection) (currentSections : List CourseSection) : Bool :=
  currentSections.any fun existingSection => hasTimeConflict s existingSection

/-- Insertion of a section under its course identity into the
insertion-ordered grouping: appended to an existing group, or a new
group appended at the end. -/
def insertGrouped :
    List (String × List CourseSection) → String → CourseSection →
      List (String × List CourseSection)
  | [], courseId, s => [(courseId, [s])]
  | (k, ss) :: rest, courseId, s =>
    if k = courseId then (k, ss ++ [s]) :: rest
    else (k, ss) :: insertGrouped rest courseId s

/-- Grouping of sections by course identity
(scheduleGenerator groupSectionsByCourse): the JavaScript Map is an
insertion-ordered association list, keys in first-seen order and each
group in push order. -/
def groupSectionsByCourse (sections : List CourseSection) :
    List (String × List CourseSection) :=
  sections.foldl (fun grouped s => insertGrouped grouped (courseIdOf s) s) []

/-- The backtracking recursion of generateNonConflictingSchedules
(buildCombinations). The index recursion over courseIds with a map
lookup is modelled as structural recursion over the grouped association
list, whose keys are exactly courseIds in order. The push, recurse, pop
loop over one course is the flat map over its non-conflicting sections
(the combination extended at the tail as push does), and the course is
skipped exactly when that filtered list is empty, which is when the
addedSection flag stays false. -/
def buildCombinations (filters : ScheduleFilters) :
    List (String × List CourseSection) → List CourseSection → List ScheduleCombination
  | [], currentCombination =>
    if meetsFilterCriteria currentCombination filters then
      [⟨currentCombination, currentCombination.length⟩]
    else []
  | (_, courseSections) :: rest, currentCombination =>
    let viable := courseSections.filter fun s => !hasConflictWithCombination s currentCombination
    if viable.isEmpty then buildCombinations filters rest currentCombination
    else viable.flatMap fun s => buildCombinations filters rest (currentCombination ++ [s])

/-- The final sort comparator as a Boolean keep-first test: strictly
more courses rank first; the Math.random tie-break the source uses
between equal course counts is modelled by the tie oracle. -/
def scheduleCmp (tie : ScheduleCombination → ScheduleCombination → Bool)
    (a b : ScheduleCombination) : Bool :=
  if b.courseCount ≠ a.courseCount then decide (b.courseCount < a.courseCount)
  else tie a b

/-- The generator (scheduleGenerator generateNonConflictingSchedules),
parameterised by the tie oracle standing for the Math.random calls of
the final sort; the JavaScript sort is modelled as a merge sort with
that comparator. -/
def generateNonConflictingSchedules (tie : ScheduleCombination → ScheduleCombination → Bool)
    (allSections : List CourseSection) (selectedCourseIds : List String)
    (filters : ScheduleFilters) : ScheduleGeneratorResult :=
  let selectedSections := allSections.filter fun s => decide (courseIdOf s ∈ selectedCourseIds)
  let sectionsByCourse := groupSectionsByCourse selectedSections
  let courseIds := sectionsByCourse.map fun p => p.1
  let combinations := buildCombinations filters sectionsByCourse []
  let sorted := combinations.mergeSort (scheduleCmp tie)
  { combinations := sorted,
    stats := { totalCombinations := sorted.length, coursesIncluded := courseIds } }

/-- Mutual absence of conflicts between two sections. -/
def noMutualConflict (s t : CourseSection) : Prop :=
  hasTimeConflict s t = false ∧ hasTimeConflict t s = false

/-- Distinctness of course identities of two sections. -/
def distinctCourseIds (s t : CourseSection) : Prop :=
  courseIdOf s ≠ courseIdOf t

/-- Ranking relation of the result order: the later combination never
holds strictly more courses. -/
def countGE (a b : ScheduleCombination) : Prop :=
  b.courseCount ≤ a.courseCount

/-- Acceptance is unconditional when the filters are disabled. -/
lemma meetsFilterCriteria_disabled (c : List CourseSection) (f : ScheduleFilters)
    (h : f.isEnabled = false) : meetsFilterCriteria c f = true := by
  unfold meetsFilterCriteria
  rw [h]
  rfl

/-- A viable section conflicts with nothing already chosen. -/
lemma viable_no_conflict {s : CourseSection} {current : List CourseSection}
    (h : (!hasConflictWithCombination s current) = true) :
    ∀ e ∈ current, hasTimeConflict s e = false := by
  intro e he
  rw [Bool.not_eq_true'] at h
  unfold hasConflictWithCombination at h
  rw [List.any_eq_false] at h
  exact Bool.not_eq_true _ ▸ h e he

/-- Every combination produced from a mutually conflict-free partial
combination is mutually conflict-free. -/
lemma buildCombinations_conflictFree (filters : ScheduleFilters) :
    ∀ (groups : List (String × List CourseSection)) (current : List CourseSection),
      current.Pairwise noMutualConflict →
      ∀ c ∈ buildCombinations filters groups current,
        c.sections.Pairwise noMutualConflict := by
  intro groups
  induction groups with
  | nil =>
    intro current hcur c hc
    simp only [buildCombinations] at hc
    split at hc
    · rw [List.mem_singleton] at hc
      subst hc
      exact hcur
    · exact absurd hc (List.not_mem_nil c)
  | cons g rest ih =>
    obtain ⟨k, ss⟩ := g
    intro current hcur c hc
    simp only [buildCombinations] at hc
    split at hc
    · exact ih current hcur c hc
    · rw [List.mem_flatMap] at hc
      obtain ⟨s, hs, hc⟩ := hc
      rw [List.mem_filter] at hs
      obtain ⟨hss, hviable⟩ := hs
      refine ih (current ++ [s]) ?_ c hc
      rw [List.pairwise_append]
      refine ⟨hcur, List.pairwise_singleton _ s, ?_⟩
      intro a ha b hb
      rw [List.mem_singleton] at hb
      rw [hb]
      have hfs := viable_no_conflict hviable a ha
      exact ⟨hasTimeConflict_comm a s ▸ hfs, hfs⟩

/-- Transfer of a per-section property through insertGrouped. -/
lemma insertGrouped_forall {P : String → CourseSection → Prop} :
    ∀ (m : List (String × List CourseSection)) (k : String) (s : CourseSection),
      (∀ p ∈ m, ∀ t ∈ p.2, P p.1 t) → P k s →
      ∀ p ∈ insertGrouped m k s, ∀ t ∈ p.2, P p.1 t := by
  intro m
  induction m with
  | nil =>
    intro k s _ hs p hp t ht
    rw [insertGrouped, List.mem_singleton] at hp
    subst hp
    rw [List.mem_singleton] at ht
    subst ht
    exact hs
  | cons q rest ih =>
    obtain ⟨d, ts⟩ := q
    intro k s hm hs p hp t ht
    simp only [insertGrouped] at hp
    split at hp
    · next hd =>
      rcases List.mem_cons.mp hp with h1 | h2
      · subst h1
        rcases List.mem_append.mp ht with h | h
        · exact hm (d, ts) (List.mem_cons_self _ _) t h
        · rw [List.mem_singleton] at h
          subst h
          exact hd ▸ hs
      · exact hm p (List.mem_cons_of_mem _ h2) t ht
    · rcases List.mem_cons.mp hp with h1 | h2
      · subst h1
        exact hm (d, ts) (List.mem_cons_self _ _) t ht
      · exact ih k s (fun q hq => hm q (List.mem_cons_of_mem _ hq)) hs p h2 t ht

/-- Transfer of a per-section property through the grouping fold. -/
lemma foldl_insertGrouped_forall {P : String → CourseSection → Prop} :
    ∀ (sections : List CourseSection) (acc : List (String × List CourseSection)),
      (∀ s ∈ sections, P (courseIdOf s) s) →
      (∀ p ∈ acc, ∀ t ∈ p.2, P p.1 t) →
      ∀ p ∈ sections.foldl (fun grouped s => insertGrouped grouped (courseIdOf s) s) acc,
        ∀ t ∈ p.2, P p.1 t := by
  intro sections
  induction sections with
  | nil => intro acc _ hacc; simpa using hacc
  | cons s rest ih =>
    intro acc hsec hacc
    rw [List.foldl_cons]
    exact ih _ (fun t ht => hsec t (List.mem_cons_of_mem _ ht))
      (insertGrouped_forall acc (courseIdOf s) s hacc (hsec s (List.mem_cons_self _ _)))

/-- Transfer of a per-section property through the whole grouping. -/
lemma groupSectionsByCourse_forall {P : String → CourseSection → Prop}
    (sections : List CourseSection) (h : ∀ s ∈ sections, P (courseIdOf s) s) :
    ∀ p ∈ groupSectionsByCourse sections, ∀ t ∈ p.2, P p.1 t :=
  foldl_insertGrouped_forall sections [] h
    (by intro p hp; exact absurd hp (List.not_mem_nil p))

/-- The keys after an insertion: unchanged when the key exists,
otherwise the key appended. -/
lemma insertGrouped_keys :
    ∀ (m : List (String × List CourseSection)) (k : String) (s : CourseSection),
      (insertGrouped m k s).map Prod.fst =
        if k ∈ m.map Prod.fst then m.map Prod.fst else m.map Prod.fst ++ [k] := by
  intro m
  induction m with
  | nil => intro k s; simp [insertGrouped]
  | cons p rest ih =>
    obtain ⟨d, ts⟩ := p
    intro k s
    simp only [insertGrouped]
    by_cases h : d = k
    · subst h
      simp
    · by_cases hm : k ∈ rest.map Prod.fst <;>
        simp [h, hm, ih, Ne.symm h]

/-- The grouping keys are distinct. -/
lemma groupKeys_nodup (sections : List CourseSection) :
    ((groupSectionsByCourse sections).map Prod.fst).Nodup := by
  unfold groupSectionsByCourse
  suffices haux : ∀ (acc : List (String × List CourseSection)), (acc.map Prod.fst).Nodup →
      ((sections.foldl (fun grouped s => insertGrouped grouped (courseIdOf s) s) acc).map
        Prod.fst).Nodup by
    exact haux [] (by simp)
  induction sections with
  | nil => intro acc hacc; simpa using hacc
  | cons s rest ih =>
    intro acc hacc
    rw [List.foldl_cons]
    refine ih _ ?_
    rw [insertGrouped_keys]
    split
    · exact hacc
    · next hk =>
      refine List.Nodup.append hacc (List.nodup_singleton _) ?_
      intro a ha hb
      rw [List.mem_singleton] at hb
      exact hk (hb ▸ ha)

/-- Every combination built from a partial combination whose course
identities are distinct and disjoint from the still-open courses has
pairwise distinct course identities. -/
lemma buildCombinations_distinctIds (filters : ScheduleFilters) :
    ∀ (groups : List (String × List CourseSection)) (current : List CourseSection),
      (∀ p ∈ groups, ∀ t ∈ p.2, courseIdOf t = p.1) →
      ((groups.map Prod.fst).Nodup) →
      current.Pairwise distinctCourseIds →
      (∀ e ∈ current, courseIdOf e ∉ groups.map Prod.fst) →
      ∀ c ∈ buildCombinations filters groups current,
        c.sections.Pairwise distinctCourseIds := by
  intro groups
  induction groups with
  | nil =>
    intro current _ _ hcur _ c hc
    simp only [buildCombinations] at hc
    split at hc
    · rw [List.mem_singleton] at hc
      subst hc
      exact hcur
    · exact absurd hc (List.not_mem_nil c)
  | cons g rest ih =>
    obtain ⟨k, ss⟩ := g
    intro current hid hnd hcur hdisj c hc
    simp only [buildCombinations] at hc
    have hndtail : ((rest.map Prod.fst).Nodup) := (List.nodup_cons.mp hnd).2
    have hidtail : ∀ p ∈ rest, ∀ t ∈ p.2, courseIdOf t = p.1 :=
      fun p hp => hid p (List.mem_cons_of_mem _ hp)
    split at hc
    · refine ih current hidtail hndtail hcur ?_ c hc
      intro e he
      have := hdisj e he
      rw [List.map_cons, List.mem_cons] at this
      exact fun hmem => this (Or.inr hmem)
    · rw [List.mem_flatMap] at hc
      obtain ⟨s, hs, hc⟩ := hc
      rw [List.mem_filter] at hs
      obtain ⟨hss, _⟩ := hs
      have hsid : courseIdOf s = k := hid (k, ss) (List.mem_cons_self _ _) s hss
      refine ih (current ++ [s]) hidtail hndtail ?_ ?_ c hc
      · rw [List.pairwise_append]
        refine ⟨hcur, List.pairwise_singleton _ s, ?_⟩
        intro a ha b hb
        rw [List.mem_singleton] at hb
        rw [hb]
        have := hdisj a ha
        rw [List.map_cons, List.mem_cons] at this
        intro heq
        exact this (Or.inl (heq.trans hsid))
      · intro e he
        rcases List.mem_append.mp he with h | h
        · have := hdisj e h
          rw [List.map_cons, List.mem_cons] at this
          exact fun hmem => this (Or.inr hmem)
        · rw [List.mem_singleton] at h
          rw [h, hsid]
          exact (List.nodup_cons.mp hnd).1

/-- Every section of every built combination comes from the grouped
pool or the starting partial combination. -/
lemma buildCombinations_sections_mem (filters : ScheduleFilters)
    (pool : List CourseSection) :
    ∀ (groups : List (String × List CourseSection)) (current : List CourseSection),
      (∀ p ∈ groups, ∀ t ∈ p.2, t ∈ pool) →
      (∀ e ∈ current, e ∈ pool) →
      ∀ c ∈ buildCombinations filters groups current, ∀ e ∈ c.sections, e ∈ pool := by
  intro groups
  induction groups with
  | nil =>
    intro current _ hcur c hc
    simp only [buildCombinations] at hc
    split at hc
    · rw [List.mem_singleton] at hc
      subst hc
      exact hcur
    · exact absurd hc (List.not_mem_nil c)
  | cons g rest ih =>
    obtain ⟨k, ss⟩ := g
    intro current hgr hcur c hc
    simp only [buildCombinations] at hc
    have hgrtail : ∀ p ∈ rest, ∀ t ∈ p.2, t ∈ pool :=
      fun p hp => hgr p (List.mem_cons_of_mem _ hp)
    split at hc
    · exact ih current hgrtail hcur c hc
    · rw [List.mem_flatMap] at hc
      obtain ⟨s, hs, hc⟩ := hc
      rw [List.mem_filter] at hs
      refine ih (current ++ [s]) hgrtail ?_ c hc
      intro e he
      rcases List.mem_append.mp he with h | h
      · exact hcur e h
      · rw [List.mem_singleton] at h
        exact h ▸ hgr (k, ss) (List.mem_cons_self _ _) s hs.1

/-- A choice of exactly one section from each group, listed in group
order. -/
def completeChoice : List (String × List CourseSection) → List CourseSection → Bool
  | [], c => c.isEmpty
  | (_, ss) :: rest, c =>
    match c with
    | [] => false
    | s :: c2 => decide (s ∈ ss) && completeChoice rest c2

/-- Completeness of the search with disabled filters: every mutually
conflict-free choice of one section per remaining group extends the
current partial combination to a recorded combination. -/
lemma buildCombinations_complete (filters : ScheduleFilters)
    (hdis : filters.isEnabled = false) :
    ∀ (groups : List (String × List CourseSection)) (current c : List CourseSection),
      (current ++ c).Pairwise noMutualConflict →
      completeChoice groups c = true →
      (⟨current ++ c, (current ++ c).length⟩ : ScheduleCombination) ∈
        buildCombinations filters groups current := by
  intro groups
  induction groups with
  | nil =>
    intro current c hp hc
    rw [show completeChoice [] c = c.isEmpty from rfl, List.isEmpty_iff] at hc
    subst hc
    simp [buildCombinations, meetsFilterCriteria_disabled _ _ hdis]
  | cons g rest ih =>
    obtain ⟨k, ss⟩ := g
    intro current c hp hc
    match c with
    | [] => exact absurd hc (by simp [completeChoice])
    | s :: c2 =>
    rw [show completeChoice ((k, ss) :: rest) (s :: c2) =
        (decide (s ∈ ss) && completeChoice rest c2) from rfl, Bool.and_eq_true] at hc
    obtain ⟨hsd, hc2⟩ := hc
    have hs : s ∈ ss := of_decide_eq_true hsd
    have hsviable : s ∈ ss.filter fun t => !hasConflictWithCombination t current := by
      rw [List.mem_filter]
      refine ⟨hs, ?_⟩
      rw [Bool.not_eq_true']
      unfold hasConflictWithCombination
      rw [List.any_eq_false]
      intro e he
      have h1 := (List.pairwise_append.mp hp).2.2 e he s (List.mem_cons_self _ _)
      rw [h1.2]
      simp
    simp only [buildCombinations]
    rw [if_neg (by
      intro habs
      rw [List.isEmpty_iff] at habs
      rw [habs] at hsviable
      exact absurd hsviable (List.not_mem_nil s))]
    rw [List.mem_flatMap]
    refine ⟨s, hsviable, ?_⟩
    have hp2 : ((current ++ [s]) ++ c2).Pairwise noMutualConflict := by
      rw [← List.append_cons]
      exact hp
    have := ih (current ++ [s]) c2 hp2 hc2
    rw [show (current ++ [s]) ++ c2 = current ++ s :: c2 by simp] at this
    exact this

/-- With disabled filters the search always records at least one
combination. -/
lemma buildCombinations_ne_nil (filters : ScheduleFilters)
    (hdis : filters.isEnabled = false) :
    ∀ (groups : List (String × List CourseSection)) (current : List CourseSection),
      buildCombinations filters groups current ≠ [] := by
  intro groups
  induction groups with
  | nil =>
    intro current
    simp [buildCombinations, meetsFilterCriteria_disabled _ _ hdis]
  | cons g rest ih =>
    obtain ⟨k, ss⟩ := g
    intro current
    simp only [buildCombinations]
    split
    · exact ih current
    · next hne =>
      cases hv : ss.filter fun s => !hasConflictWithCombination s current with
      | nil =>
        rw [hv] at hne
        simp at hne
      | cons v vs =>
        rw [List.flatMap_cons]
        intro habs
        exact ih (current ++ [v]) (List.append_eq_nil.mp habs).1

/-- A comparator compatible with the course-count ranking: a true
verdict never puts a strictly larger count later, a false verdict never
puts one earlier. -/
def compatibleCmp (cmp : ScheduleCombination → ScheduleCombination → Bool) : Prop :=
  ∀ a b, (cmp a b = true → b.courseCount ≤ a.courseCount) ∧
    (cmp a b = false → a.courseCount ≤ b.courseCount)

/-- Merging two count-descending lists with a compatible comparator
yields a count-descending list, whatever the comparator does on ties. -/
lemma pairwise_merge_countGE {cmp : ScheduleCombination → ScheduleCombination → Bool}
    (hc : compatibleCmp cmp) :
    ∀ (xs ys : List ScheduleCombination), xs.Pairwise countGE → ys.Pairwise countGE →
      (xs.merge ys cmp).Pairwise countGE
  | [], ys, _, h2 => by simpa using h2
  | x :: xs, [], h1, _ => by simpa using h1
  | x :: xs, y :: ys, h1, h2 => by
    rw [List.merge]
    split
    · next hxy =>
      rw [List.pairwise_cons]
      refine ⟨?_, pairwise_merge_countGE hc xs (y :: ys) (List.Pairwise.of_cons h1) h2⟩
      intro z hz
      rw [List.mem_merge] at hz
      rcases hz with hz | hz
      · exact List.rel_of_pairwise_cons h1 hz
      · rcases List.mem_cons.mp hz with rfl | hz
        · exact (hc x z).1 hxy
        · exact le_trans (List.rel_of_pairwise_cons h2 hz) ((hc x y).1 hxy)
    · next hxy =>
      have hyx := (hc x y).2 (eq_false_of_ne_true hxy)
      rw [List.pairwise_cons]
      refine ⟨?_, pairwise_merge_countGE hc (x :: xs) ys h1 (List.Pairwise.of_cons h2)⟩
      intro z hz
      rw [List.mem_merge] at hz
      rcases hz with hz | hz
      · rcases List.mem_cons.mp hz with rfl | hz
        · exact hyx
        · exact le_trans (List.rel_of_pairwise_cons h1 hz) hyx
      · exact List.rel_of_pairwise_cons h2 hz
termination_by xs ys => xs.length + ys.length

/-- The merge sort with any compatible comparator yields a
count-descending list. -/
lemma pairwise_mergeSort_countGE {cmp : ScheduleCombination → ScheduleCombination → Bool}
    (hc : compatibleCmp cmp) :
    ∀ l : List ScheduleCombination, (l.mergeSort cmp).Pairwise countGE
  | [] => by simp
  | [a] => by simp
  | a :: b :: xs => by
    have h1 : (List.splitInTwo ⟨a :: b :: xs, rfl⟩).1.1.length < xs.length + 1 + 1 := by
      simp [List.splitInTwo_fst]
      omega
    have h2 : (List.splitInTwo ⟨a :: b :: xs, rfl⟩).2.1.length < xs.length + 1 + 1 := by
      simp [List.splitInTwo_snd]
      omega
    rw [List.mergeSort]
    exact pairwise_merge_countGE hc _ _
      (pairwise_mergeSort_countGE hc _) (pairwise_mergeSort_countGE hc _)
termination_by l => l.length

/-- The comparator of the final sort is compatible with the
course-count ranking for every tie oracle. -/
lemma scheduleCmp_compatible (tie : ScheduleCombination → ScheduleCombination → Bool) :
    compatibleCmp (scheduleCmp tie) := by
  intro a b
  unfold scheduleCmp
  by_cases h : b.courseCount ≠ a.courseCount
  · rw [if_pos h]
    constructor
    · intro ht
      exact le_of_lt (of_decide_eq_true ht)
    · intro hf
      have := of_decide_eq_false hf
      omega
  · rw [if_neg h]
    push_neg at h
    constructor <;> intro _ <;> omega

/-- Membership in the sorted result is membership in the raw search
output. -/
lemma mem_generate_iff (tie : ScheduleCombination → ScheduleCombination → Bool)
    (allSections : List CourseSection) (selectedCourseIds : List String)
    (filters : ScheduleFilters) (combo : ScheduleCombination) :
    combo ∈ (generateNonConflictingSchedules tie allSections selectedCourseIds filters).combinations ↔
      combo ∈ buildCombinations filters
        (groupSectionsByCourse (allSections.filter fun s =>
          decide (courseIdOf s ∈ selectedCourseIds))) [] := by
  show combo ∈ List.mergeSort _ (scheduleCmp tie) ↔ _
  exact List.mem_mergeSort

/-- Every grouped section has the course identity of its key. -/
lemma groupSectionsByCourse_ids (sections : List CourseSection) :
    ∀ p ∈ groupSectionsByCourse sections, ∀ t ∈ p.2, courseIdOf t = p.1 :=
  groupSectionsByCourse_forall (P := fun k t => courseIdOf t = k) sections (fun _ _ => rfl)

/-- Every grouped section comes from the grouped list. -/
lemma groupSectionsByCourse_mem (sections : List CourseSection) :
    ∀ p ∈ groupSectionsByCourse sections, ∀ t ∈ p.2, t ∈ sections :=
  groupSectionsByCourse_forall (P := fun _ t => t ∈ sections) sections (fun _ hs => hs)

/-! ## C3 and C4: invariants of every returned combination -/

/-- C3: every combination the generator returns is internally
conflict-free; hasTimeConflict is false on every pair of distinct
positions, in both orders. -/
theorem c3_internally_conflict_free
    (tie : ScheduleCombination → ScheduleCombination → Bool)
    (allSections : List CourseSection) (selectedCourseIds : List String)
    (filters : ScheduleFilters) (combo : ScheduleCombination)
    (h : combo ∈ (generateNonConflictingSchedules tie allSections selectedCourseIds
      filters).combinations) :
    combo.sections.Pairwise noMutualConflict := by
  rw [mem_generate_iff] at h
  exact buildCombinations_conflictFree filters _ [] List.Pairwise.nil combo h

/-- C3 witness: the empty generation run returns the empty combination,
trivially conflict-free. -/
theorem c3_internally_conflict_free_witness :
    (⟨[], 0⟩ : ScheduleCombination) ∈
      (generateNonConflictingSchedules (fun _ _ => true) [] [] defaultFilters).combinations ∧
    (⟨[], 0⟩ : ScheduleCombination).sections.Pairwise noMutualConflict := by
  have hm : (⟨[], 0⟩ : ScheduleCombination) ∈
      (generateNonConflictingSchedules (fun _ _ => true) [] [] defaultFilters).combinations := by
    rw [mem_generate_iff]
    decide
  exact ⟨hm, c3_internally_conflict_free _ _ _ _ _ hm⟩

/-- C4: no returned combination holds two sections of the same course
identity (the concatenation of subject and course code). -/
theorem c4_one_section_per_course
    (tie : ScheduleCombination → ScheduleCombination → Bool)
    (allSections : List CourseSection) (selectedCourseIds : List String)
    (filters : ScheduleFilters) (combo : ScheduleCombination)
    (h : combo ∈ (generateNonConflictingSchedules tie allSections selectedCourseIds
      filters).combinations) :
    combo.sections.Pairwise distinctCourseIds := by
  rw [mem_generate_iff] at h
  exact buildCombinations_distinctIds filters _ []
    (groupSectionsByCourse_ids _) (groupKeys_nodup _) List.Pairwise.nil
    (fun e he => absurd he (List.not_mem_nil e)) combo h

/-- C4 witness: the empty generation run. -/
theorem c4_one_section_per_course_witness :
    (⟨[], 0⟩ : ScheduleCombination) ∈
      (generateNonConflictingSchedules (fun _ _ => false) [] [] defaultFilters).combinations ∧
    (⟨[], 0⟩ : ScheduleCombination).sections.Pairwise distinctCourseIds := by
  have hm : (⟨[], 0⟩ : ScheduleCombination) ∈
      (generateNonConflictingSchedules (fun _ _ => false) [] [] defaultFilters).combinations := by
    rw [mem_generate_iff]
    decide
  exact ⟨hm, c4_one_section_per_course _ _ _ _ _ hm⟩

/-! ## C2: the output set with disabled filters -/

/-- C2 amended: with disabled filters, every returned combination is
mutually conflict-free with at most one section per course identity and
draws only from the selected sections, and conversely every mutually
conflict-free choice of exactly one section per grouped course (in
course order) is returned. The originally claimed completeness over
arbitrary partial conflict-free choices fails because of the
skip-only-when-unsatisfiable policy, see the counterexample. -/
theorem c2_output_characterisation
    (tie : ScheduleCombination → ScheduleCombination → Bool)
    (allSections : List CourseSection) (selectedCourseIds : List String)
    (filters : ScheduleFilters) (hdis : filters.isEnabled = false) :
    (∀ combo ∈ (generateNonConflictingSchedules tie allSections selectedCourseIds
        filters).combinations,
      combo.sections.Pairwise noMutualConflict ∧
      combo.sections.Pairwise distinctCourseIds ∧
      ∀ s ∈ combo.sections, s ∈ allSections ∧ courseIdOf s ∈ selectedCourseIds) ∧
    (∀ c : List CourseSection, c.Pairwise noMutualConflict →
      completeChoice (groupSectionsByCourse (allSections.filter fun s =>
        decide (courseIdOf s ∈ selectedCourseIds))) c = true →
      (⟨c, c.length⟩ : ScheduleCombination) ∈
        (generateNonConflictingSchedules tie allSections selectedCourseIds
          filters).combinations) := by
  constructor
  · intro combo h
    rw [mem_generate_iff] at h
    refine ⟨buildCombinations_conflictFree filters _ [] List.Pairwise.nil combo h,
      buildCombinations_distinctIds filters _ []
        (groupSectionsByCourse_ids _) (groupKeys_nodup _) List.Pairwise.nil
        (fun e he => absurd he (List.not_mem_nil e)) combo h, ?_⟩
    intro s hs
    have hmem := buildCombinations_sections_mem filters
      (allSections.filter fun t => decide (courseIdOf t ∈ selectedCourseIds)) _ []
      (groupSectionsByCourse_mem _) (fun e he => absurd he (List.not_mem_nil e)) combo h s hs
    rw [List.mem_filter] at hmem
    exact ⟨hmem.1, of_decide_eq_true hmem.2⟩
  · intro c hcf hcc
    rw [mem_generate_iff]
    have := buildCombinations_complete filters hdis _ [] c (by simpa using hcf) hcc
    simpa using this

/-- C2 counterexample: one selected course with one conflict-free
section. The empty selection is a conflict-free choice of at most one
section per selected course identity, yet the generator never returns
it, because a satisfiable course is never skipped: the claimed equality
with the set of all conflict-free combinations fails. -/
theorem c2_counterexample :
    defaultFilters.isEnabled = false ∧
    ([] : List CourseSection).Pairwise noMutualConflict ∧
    ([] : List CourseSection).Pairwise distinctCourseIds ∧
    (⟨[], 0⟩ : ScheduleCombination) ∉
      (generateNonConflictingSchedules (fun _ _ => true) [weekdaySection] ["WWW202"]
        defaultFilters).combinations := by
  refine ⟨rfl, List.Pairwise.nil, List.Pairwise.nil, ?_⟩
  rw [mem_generate_iff]
  decide

/-- C2 witness: the complete choice of the single section is returned. -/
theorem c2_output_characterisation_witness :
    defaultFilters.isEnabled = false ∧
    (⟨[weekdaySection], 1⟩ : ScheduleCombination) ∈
      (generateNonConflictingSchedules (fun _ _ => true) [weekdaySection] ["WWW202"]
        defaultFilters).combinations := by
  refine ⟨rfl, ?_⟩
  exact (c2_output_characterisation (fun _ _ => true) [weekdaySection] ["WWW202"]
    defaultFilters rfl).2 [weekdaySection] (List.pairwise_singleton _ _) (by decide)

/-! ## C7: result ordering -/

/-- C7: the returned combinations list is ordered by course count
descending, for every tie oracle: whenever one combination precedes
another, the later one never holds strictly more courses, so a
combination with strictly more courses always appears first. -/
theorem c7_sorted_by_courseCount
    (tie : ScheduleCombination → ScheduleCombination → Bool)
    (allSections : List CourseSection) (selectedCourseIds : List String)
    (filters : ScheduleFilters) :
    (generateNonConflictingSchedules tie allSections selectedCourseIds
      filters).combinations.Pairwise countGE := by
  show (List.mergeSort _ (scheduleCmp tie)).Pairwise countGE
  exact pairwise_mergeSort_countGE (scheduleCmp_compatible tie) _

/-! ## C10: the generator never returns an empty list with filters
disabled -/

/-- C10: with disabled filters the generator always reports at least
one combination, and when the selected identities match no section it
returns exactly the single empty combination with course count 0. -/
theorem c10_disabled_nonempty
    (tie : ScheduleCombination → ScheduleCombination → Bool)
    (allSections : List CourseSection) (selectedCourseIds : List String)
    (filters : ScheduleFilters) (hdis : filters.isEnabled = false) :
    1 ≤ (generateNonConflictingSchedules tie allSections selectedCourseIds
        filters).stats.totalCombinations ∧
    ((∀ s ∈ allSections, courseIdOf s ∉ selectedCourseIds) →
      (generateNonConflictingSchedules tie allSections selectedCourseIds
        filters).combinations = [⟨[], 0⟩] ∧
      (generateNonConflictingSchedules tie allSections selectedCourseIds
        filters).stats.totalCombinations = 1) := by
  constructor
  · show 1 ≤ (List.mergeSort _ (scheduleCmp tie)).length
    rw [List.length_mergeSort]
    exact List.length_pos.mpr (buildCombinations_ne_nil filters hdis _ [])
  · intro hnone
    have hsel : (allSections.filter fun s => decide (courseIdOf s ∈ selectedCourseIds)) = [] := by
      rw [List.filter_eq_nil_iff]
      intro a ha
      simp [hnone a ha]
    have heq : (generateNonConflictingSchedules tie allSections selectedCourseIds
        filters).combinations = [⟨[], 0⟩] := by
      show (buildCombinations filters (groupSectionsByCourse (allSections.filter fun s =>
        decide (courseIdOf s ∈ selectedCourseIds))) []).mergeSort (scheduleCmp tie) = [⟨[], 0⟩]
      rw [hsel, show groupSectionsByCourse [] = [] from rfl,
        show buildCombinations filters [] [] = [⟨[], 0⟩] from by
          simp [buildCombinations, meetsFilterCriteria_disabled _ _ hdis]]
      exact List.mergeSort_singleton _
    refine ⟨heq, ?_⟩
    rw [show (generateNonConflictingSchedules tie allSections selectedCourseIds
        filters).stats.totalCombinations =
      (generateNonConflictingSchedules tie allSections selectedCourseIds
        filters).combinations.length from rfl, heq]
    rfl

/-- C10 witness: the empty generation run with the default disabled
filters. -/
theorem c10_disabled_nonempty_witness :
    defaultFilters.isEnabled = false ∧
    (generateNonConflictingSchedules (fun _ _ => true) [] [] defaultFilters).combinations =
      [⟨[], 0⟩] ∧
    1 ≤ (generateNonConflictingSchedules (fun _ _ => true) [] []
      defaultFilters).stats.totalCombinations := by
  refine ⟨rfl, ?_, ?_⟩
  · exact ((c10_disabled_nonempty (fun _ _ => true) [] [] defaultFilters rfl).2
      (by intro s hs; exact absurd hs (List.not_mem_nil s))).1
  · exact (c10_disabled_nonempty (fun _ _ => true) [] [] defaultFilters rfl).1
